import Mathlib

/-!
# A verification model of the 3DS content-addressed storage engine

This file gives a shallow embedding, in Lean 4, of the core of the 3DS
repository (Go): the chunked object storage layer (`pkg/core`: `StoreModel`,
`splitAndStoreChunks`, `StreamModel`, `DeleteModel`, `GetModel`,
`CalculateHash`), the content-addressed block store (`pkg/blocks/store.go`:
`StoreBlock`, `GetBlock`), and the overlay network's backoff connection loop
and message receive loop (`pkg/p2p/network.go`).

Modelling conventions:

* Bytes are `Nat`; byte buffers are `List Nat`.
* The filesystem is explicit state.  A model's chunk directory is a
  `List (List Nat)`: element `i` is the content of the file `chunk_i`.
  Both the in-memory catalog (a Go `map` guarded by a lock) and the
  directories on disk are association lists keyed by strings.
* Go's `io.Reader` is modelled by a list of read events: each successful
  `Read(buffer)` call returns one run of bytes (at most the buffer size);
  exhausting the list is `io.EOF`; a read may instead surface an error.
  This captures the interface the code is written against, including
  readers that return "short" reads of fewer bytes than the buffer holds.
* `context.Context` cancellation is modelled by `Option Nat`: `some k`
  means the context's Done channel is observed closed from the `k`-th
  cancellation check onward (cancellation is monotone), `none` means the
  context is never cancelled.  `ctx.Err()` is the string `ctxErr`.
* `uuid.New()` is nondeterministic fresh-name generation; it is modelled
  by passing the generated name(s) as explicit parameters (`newId` for the
  model id, `chunkIds : Nat → String` for per-chunk ids).
* `crypto/sha256` is an external library, not part of this repository;
  it is modelled by an explicit digest-function parameter.  No theorem
  below depends on properties of SHA-256 beyond its being a function.
* Effects that the Go code performs incrementally (writing chunk files one
  by one) are modelled by returning the accumulated effect, applied to the
  state by the caller; the observable end states coincide because on
  failure `StoreModel` removes the whole model directory.
-/

namespace ThreeDS

/-! ## Association lists (Go maps / flat directories) -/

/-- Lookup in an association list (first binding wins). -/
def lookupA {α : Type} (k : String) : List (String × α) → Option α
  | [] => none
  | (k', v) :: rest => if k' = k then some v else lookupA k rest

/-- Remove every binding for a key. -/
def removeA {α : Type} (k : String) (m : List (String × α)) : List (String × α) :=
  m.filter (fun p => p.1 ≠ k)

/-- Insert/overwrite the binding for a key. -/
def insertA {α : Type} (k : String) (v : α) (m : List (String × α)) :
    List (String × α) :=
  (k, v) :: removeA k m

@[simp] theorem lookupA_nil {α : Type} (k : String) :
    lookupA (α := α) k [] = none := rfl

@[simp] theorem lookupA_cons {α : Type} (k k' : String) (v : α) (m : List (String × α)) :
    lookupA k ((k', v) :: m) = if k' = k then some v else lookupA k m := rfl

@[simp] theorem lookupA_removeA_self {α : Type} (k : String) (m : List (String × α)) :
    lookupA k (removeA k m) = none := by
  induction m with
  | nil => rfl
  | cons p rest ih =>
      rcases p with ⟨k', v⟩
      by_cases h : k' = k
      · simpa [removeA, h] using ih
      · simpa [removeA, h, List.filter] using ih

theorem lookupA_removeA_ne {α : Type} (k k' : String) (m : List (String × α))
    (h : k' ≠ k) : lookupA k' (removeA k m) = lookupA k' m := by
  induction m with
  | nil => rfl
  | cons p rest ih =>
      rcases p with ⟨k'', v⟩
      by_cases hk : k'' = k
      · subst hk
        have h1 : removeA k'' ((k'', v) :: rest) = removeA k'' rest := by
          simp [removeA]
        rw [h1, ih]
        simp [Ne.symm h]
      · have h1 : removeA k ((k'', v) :: rest) = (k'', v) :: removeA k rest := by
          simp [removeA, hk]
        rw [h1]
        by_cases hk' : k'' = k'
        · simp [hk']
        · simp [hk', ih]

@[simp] theorem lookupA_insertA_self {α : Type} (k : String) (v : α)
    (m : List (String × α)) : lookupA k (insertA k v m) = some v := by
  simp [insertA]

theorem lookupA_insertA_ne {α : Type} (k k' : String) (v : α)
    (m : List (String × α)) (h : k ≠ k') :
    lookupA k' (insertA k v m) = lookupA k' m := by
  simp [insertA, h]
  exact lookupA_removeA_ne k k' m (Ne.symm h)

/-! ## Chunked object storage: data model (`pkg/core`) -/

/-- `const ChunkSize = 1024 * 1024 * 5` — the 5 MiB chunk ceiling. -/
def ChunkSize : Nat := 1024 * 1024 * 5

/-- `ModelMetadata` (`pkg/core`, metadata file): the catalog entry for one
stored model. -/
structure ModelMetadata where
  id : String
  name : String
  format : String
  size : Nat
  hash : String
  chunks : List String
  createdAt : Nat
  owner : String
  permissions : List String
  deriving Repr, DecidableEq

/-- `func (m *ModelMetadata) CalculateHash() string`:
`sha256(m.ID + m.Name + m.Format)`, hex encoded.  The SHA-256 digest and
hex encoding live in Go's standard library, outside this repository, so
they are abstracted into the parameter `digest`; the concatenated input
string mirrors the source exactly. -/
def ModelMetadata.CalculateHash (digest : String → String) (m : ModelMetadata) :
    String :=
  digest (m.id ++ m.name ++ m.format)

/-- The `Storage` struct: base path plus the in-memory catalog, together
with the filesystem state rooted at `basePath` (one chunk directory per
model id; directory entry `i` is the file `chunk_i`). -/
structure Storage where
  basePath : String
  metadata : List (String × ModelMetadata)
  disk : List (String × List (List Nat))
  deriving Repr, DecidableEq

/-- One result of a call to `reader.Read(buffer)`: either `n` bytes of data
(with `err == nil`), or a non-EOF error.  `io.EOF` is the exhaustion of the
event list. -/
inductive ReadEvent where
  | bytes (data : List Nat)
  | err (e : String)
  deriving Repr, DecidableEq

/-- The data carried by a read event (empty for an error event). -/
def ReadEvent.dataOf : ReadEvent → List Nat
  | .bytes d => d
  | .err _ => []

/-- Whether a read event is a successful read. -/
def ReadEvent.isBytes : ReadEvent → Prop
  | .bytes _ => True
  | .err _ => False

instance : DecidablePred ReadEvent.isBytes := fun e => by
  cases e <;> simp [ReadEvent.isBytes] <;> infer_instance

/-- `ctx.Err()` for a cancelled context ("context canceled"). -/
def ctxErr : String := "context canceled"

/-- Whether the context's Done channel is observed closed at cancellation
check number `i` (checks are numbered from 0; cancellation is monotone). -/
def ctxDone (cancelAt : Option Nat) (i : Nat) : Bool :=
  match cancelAt with
  | none => false
  | some k => decide (k ≤ i)

/-- Result of `splitAndStoreChunks`: on success the chunk id list, the total
size, and the chunk files written (in index order); on failure the error
together with the chunk files that had already been written before the
failure (they stay on disk until `StoreModel` removes the directory). -/
inductive ChunksResult where
  | ok (chunks : List String) (totalSize : Nat) (written : List (List Nat))
  | err (e : String) (written : List (List Nat))
  deriving Repr, DecidableEq

/-- `func (s *Storage) splitAndStoreChunks(ctx, modelPath, reader)`.

Each loop iteration first checks `ctx.Done()` (the `select`/`default`),
then calls `reader.Read(buffer)`: a non-EOF error aborts, `io.EOF`
(exhaustion of `events`) returns the accumulated results, and otherwise the
`n` read bytes are written as the file `chunk_<index>` (a write failure at
index `i` is modelled by `writeErr i = some e`) and the fresh chunk id
(`chunkIds index`, modelling `uuid.New()`) is appended. -/
def splitAndStoreChunks (cancelAt : Option Nat) (writeErr : Nat → Option String)
    (chunkIds : Nat → String) : List ReadEvent → Nat → ChunksResult
  | events, idx =>
    if ctxDone cancelAt idx then .err ctxErr []
    else
      match events with
      | [] => .ok [] 0 []
      | .err e :: _ => .err e []
      | .bytes data :: rest =>
          match writeErr idx with
          | some e => .err e []
          | none =>
              match splitAndStoreChunks cancelAt writeErr chunkIds rest (idx + 1) with
              | .ok cs n ds => .ok (chunkIds idx :: cs) (data.length + n) (data :: ds)
              | .err e ds => .err e (data :: ds)

/-- The metadata `StoreModel` builds on success: the fields set at creation
(`ID`, `Name`, `Format`, `CreatedAt`; `Owner`/`Permissions` keep their zero
values) plus `Chunks`, `Size` and `Hash = metadata.CalculateHash()`
(computed while the `Hash` field still holds its zero value). -/
def mkMetadata (digest : String → String) (newId name format : String) (now : Nat)
    (cs : List String) (n : Nat) : ModelMetadata :=
  let md0 : ModelMetadata :=
    { id := newId, name := name, format := format, size := n, hash := ""
      chunks := cs, createdAt := now, owner := "", permissions := [] }
  { md0 with hash := md0.CalculateHash digest }

/-- `func (s *Storage) StoreModel(ctx, name, format, reader)`.

Fresh metadata is created with the generated id `newId`, the model
directory is created, the stream is split into chunks, and on success the
metadata (size, chunk list, hash) is inserted into the catalog.  On any
chunking failure the partially created model directory is removed
(`os.RemoveAll`) and the error is returned.  On success the chunk files
written overwrite `chunk_0 .. chunk_{k-1}` positionally; stale higher-index
files of a pre-existing directory at the same path would survive, as with
`os.WriteFile` into a directory `os.MkdirAll` left in place. -/
def StoreModel (digest : String → String) (s : Storage) (newId name format : String)
    (now : Nat) (chunkIds : Nat → String) (cancelAt : Option Nat)
    (writeErr : Nat → Option String) (events : List ReadEvent) :
    Except String ModelMetadata × Storage :=
  match splitAndStoreChunks cancelAt writeErr chunkIds events 0 with
  | .err e _ => (.error e, { s with disk := removeA newId s.disk })
  | .ok cs n ds =>
      let md := mkMetadata digest newId name format now cs n
      let dir0 := (lookupA newId s.disk).getD []
      (.ok md,
        { s with
            metadata := insertA newId md s.metadata
            disk := insertA newId (ds ++ dir0.drop ds.length) s.disk })

/-- `func (s *Storage) getMetadata(modelID)`: catalog lookup, failing with
`model not found: <id>` when absent. -/
def getMetadata (s : Storage) (modelID : String) : Except String ModelMetadata :=
  match lookupA modelID s.metadata with
  | none => .error ("model not found: " ++ modelID)
  | some md => .ok md

/-- `func (s *Storage) GetModel(ctx, modelID)`: delegates to `getMetadata`. -/
def GetModel (s : Storage) (modelID : String) : Except String ModelMetadata :=
  getMetadata s modelID

/-- `func (s *Storage) DeleteModel(ctx, modelID)`: fails with NotFound when
the id is unknown, otherwise removes the catalog entry and recursively
deletes the model's chunk directory. -/
def DeleteModel (s : Storage) (modelID : String) : Except String Unit × Storage :=
  match lookupA modelID s.metadata with
  | none => (.error ("model not found: " ++ modelID), s)
  | some _ =>
      (.ok (),
        { s with
            metadata := removeA modelID s.metadata
            disk := removeA modelID s.disk })

/-- The per-chunk loop of `StreamModel`: for `rem` remaining indices
starting at `i`, check `ctx.Done()`, read the file `chunk_i` from the
model's directory, and write it to the output writer.  Returns the list of
writes performed (the writer's transcript) and the call's result. -/
def streamChunks (cancelAt : Option Nat) (dir : List (List Nat)) :
    Nat → Nat → List (List Nat) × Except String Unit
  | 0, _ => ([], .ok ())
  | rem + 1, i =>
      if ctxDone cancelAt i then ([], .error ctxErr)
      else
        match dir[i]? with
        | none => ([], .error ("failed to read chunk " ++ toString i))
        | some data =>
            let r := streamChunks cancelAt dir rem (i + 1)
            (data :: r.1, r.2)

/-- `func (s *Storage) StreamModel(ctx, modelID, writer)`: looks up the
metadata, then reads and writes `chunk_0 .. chunk_{len(chunks)-1}` in
ascending index order.  The first component is the sequence of writes the
output writer received. -/
def StreamModel (s : Storage) (cancelAt : Option Nat) (modelID : String) :
    List (List Nat) × Except String Unit :=
  match lookupA modelID s.metadata with
  | none => ([], .error ("model not found: " ++ modelID))
  | some md =>
      streamChunks cancelAt ((lookupA modelID s.disk).getD []) md.chunks.length 0

/-! ## Maximal readers (`bytes.Reader` / `strings.Reader` behaviour) -/

/-- Split a byte stream into runs of `ChunkSize`, the behaviour of a reader
that fills the 5 MiB buffer whenever that much data remains. -/
def splitStream : List Nat → List (List Nat)
  | [] => []
  | a :: s => (a :: s).take ChunkSize :: splitStream ((a :: s).drop ChunkSize)
termination_by s => s.length
decreasing_by
  simp [ChunkSize]
  omega

/-- The read events produced by a maximal reader over the stream `S`. -/
def toReads (S : List Nat) : List ReadEvent :=
  (splitStream S).map ReadEvent.bytes

/-- The lengths of the runs `splitStream` cuts a stream of `n` bytes into. -/
def chunkLens (n : Nat) : List Nat :=
  if n = 0 then [] else min n ChunkSize :: chunkLens (n - ChunkSize)
termination_by n
decreasing_by
  simp [ChunkSize]
  omega

/-! ## Block store (`pkg/blocks/store.go`) -/

/-- `Block`: a chunk of model data as returned by `GetBlock`. -/
structure Block where
  hash : String
  size : Nat
  data : List Nat
  deriving Repr, DecidableEq

/-- The block store's flat directory: one file per content digest.
(The `Store` struct holds only `basePath`; the directory contents are the
filesystem state.) -/
abbrev BlockDisk := List (String × List Nat)

/-- `func (s *Store) StoreBlock(ctx, data)`: computes the content digest
(`calculateHash`, hex-encoded SHA-256 — an external library, abstracted as
the parameter `digest`), returns it unchanged if a file for that digest
already exists, and otherwise writes the block file.  The Boolean records
whether `os.WriteFile` was invoked (the "new write" observable). -/
def StoreBlock (digest : List Nat → String) (st : BlockDisk) (data : List Nat) :
    String × BlockDisk × Bool :=
  let hash := digest data
  match lookupA hash st with
  | some _ => (hash, st, false)
  | none => (hash, insertA hash data st, true)

/-- `func (s *Store) GetBlock(ctx, hash)`: reads the file at the digest's
path and returns a `Block` whose `Hash` is the *requested* hash and whose
`Size` is the length of whatever data was on disk; no digest verification
is performed.  Fails with "block not found" when no such file exists. -/
def GetBlock (st : BlockDisk) (hash : String) : Except String Block :=
  match lookupA hash st with
  | none => .error "block not found"
  | some data => .ok { hash := hash, size := data.length, data := data }

/-- `func (s *Store) DeleteBlock(ctx, hash)`: removes the block file. -/
def DeleteBlock (st : BlockDisk) (hash : String) : BlockDisk :=
  removeA hash st

/-- Number of files in the block store whose content is `data`. -/
def countCopies (data : List Nat) (st : BlockDisk) : Nat :=
  (st.filter (fun p => p.2 = data)).length

/-- Every file in the store sits at the path of its own content digest
(the invariant `StoreBlock` establishes). -/
def BlockDiskWF (digest : List Nat → String) (st : BlockDisk) : Prop :=
  ∀ p ∈ st, p.1 = digest p.2

/-! ## Overlay network (`pkg/p2p/network.go`) -/

/-- Outcome of `connectToPeerWithBackoff`, instrumented with the attempt
index reached and the sleeps performed (in seconds). -/
inductive BackoffOutcome where
  | connected (attempts : Nat) (delays : List Nat)
  | maxBackoff (delays : List Nat)
  | cancelled (delays : List Nat)
  deriving Repr, DecidableEq

/-- The retry loop of `connectToPeerWithBackoff`.  The backoff delay before
attempt `i` has been made is `2^i` seconds (`backoff := time.Second`,
doubled after every failed attempt); `maxBackoff` is `time.Minute`, i.e.
60 seconds.  Each iteration first checks `ctx.Done()`, then attempts the
connection (`attemptOk i` tells whether attempt number `i` succeeds), then
returns the "max backoff reached" failure if the current delay exceeds the
ceiling, and otherwise sleeps for the delay and doubles it. -/
def backoffLoop (attemptOk : Nat → Bool) (cancelAt : Option Nat) (i : Nat)
    (delays : List Nat) : BackoffOutcome :=
  if ctxDone cancelAt i then .cancelled delays
  else if attemptOk i then .connected i delays
  else if 2 ^ i > 60 then .maxBackoff delays
  else backoffLoop attemptOk cancelAt (i + 1) (delays ++ [2 ^ i])
termination_by 6 - i
decreasing_by
  rename_i _hc _ha hb
  have h6 : i ≤ 5 := by
    by_contra hgt
    have h64 : 2 ^ 6 ≤ 2 ^ i := Nat.pow_le_pow_right (by omega) (by omega)
    simp at hb
    omega
  omega

/-- `func (n *Network) connectToPeerWithBackoff(ctx, peerInfo)`: the loop
entered with `backoff = time.Second` (exponent 0) and no sleeps yet. -/
def connectToPeerWithBackoff (attemptOk : Nat → Bool) (cancelAt : Option Nat) :
    BackoffOutcome :=
  backoffLoop attemptOk cancelAt 0 []

/-- One configured bootstrap address: the multiaddr may fail to parse, the
peer info extraction may fail, or we get a connectable peer whose attempt
outcomes are given by a function. -/
inductive PeerAddr where
  | invalidAddr
  | invalidInfo
  | valid (attemptOk : Nat → Bool)

/-- `func (n *Network) connectToBootstrapPeers(ctx)`: iterates over the
configured bootstrap addresses; every failure (parse, info extraction, or
connection) just `continue`s to the next address; the function always
returns `nil`.  The first component records the backoff outcome of each
address that reached the connection stage. -/
def connectToBootstrapPeers (cancelAt : Option Nat) :
    List PeerAddr → List BackoffOutcome × Except String Unit
  | [] => ([], .ok ())
  | .invalidAddr :: rest => connectToBootstrapPeers cancelAt rest
  | .invalidInfo :: rest => connectToBootstrapPeers cancelAt rest
  | .valid attemptOk :: rest =>
      let r := connectToPeerWithBackoff attemptOk cancelAt
      let rs := connectToBootstrapPeers cancelAt rest
      (r :: rs.1, rs.2)

/-- The backoff outcome a single configured bootstrap address leads to
(`none` when its multiaddr or peer info fails to parse and the address is
skipped before any connection attempt). -/
def peerOutcome (cancelAt : Option Nat) : PeerAddr → Option BackoffOutcome
  | .invalidAddr => none
  | .invalidInfo => none
  | .valid attemptOk => some (connectToPeerWithBackoff attemptOk cancelAt)

/-- One delivery from the pubsub subscription to the receive loop: either a
message (with the sender identity `pubsub.Message.ReceivedFrom` and its
payload) or a transient `Next` error, which the loop skips. -/
inductive SubEvent where
  | msg (receivedFrom : String) (payload : List Nat)
  | recvError
  deriving Repr, DecidableEq

/-- `func (n *Network) handleMessages(ctx)`: pulls each delivery from the
subscription in order; `Next` errors are retried; a message whose
`ReceivedFrom` equals the local host's identity is skipped; every other
message is dispatched (`go n.processMessage(...)`).  The result is the
sequence of messages dispatched to the handler. -/
def handleMessages (hostID : String) : List SubEvent → List (String × List Nat)
  | [] => []
  | .recvError :: rest => handleMessages hostID rest
  | .msg f p :: rest =>
      if f = hostID then handleMessages hostID rest
      else (f, p) :: handleMessages hostID rest

/-- The messages (sender, payload) among a list of subscription events. -/
def SubEvent.msgOf : SubEvent → Option (String × List Nat)
  | .msg f p => some (f, p)
  | .recvError => none

@[simp] theorem ctxDone_none (i : Nat) : ctxDone none i = false := rfl

@[simp] theorem ctxDone_some (k i : Nat) : ctxDone (some k) i = decide (k ≤ i) := rfl

theorem splitStream_nil : splitStream [] = [] := by rw [splitStream]

theorem chunkLens_zero : chunkLens 0 = [] := by rw [chunkLens]; rfl

theorem chunkLens_pos (n : Nat) (h : ¬ n = 0) :
    chunkLens n = min n ChunkSize :: chunkLens (n - ChunkSize) := by
  conv_lhs => rw [chunkLens.eq_def]
  rw [if_neg h]

theorem splitStream_cons (a : Nat) (s : List Nat) :
    splitStream (a :: s) =
      (a :: s).take ChunkSize :: splitStream ((a :: s).drop ChunkSize) := by
  rw [splitStream]

theorem splitStream_flatten (S : List Nat) : (splitStream S).flatten = S := by
  induction S using splitStream.induct with
  | case1 => simp [splitStream_nil]
  | case2 a s ih =>
      rw [splitStream_cons]
      simp only [List.flatten_cons, ih]
      exact List.take_append_drop _ _

theorem splitStream_lengths (S : List Nat) :
    (splitStream S).map List.length = chunkLens S.length := by
  induction S using splitStream.induct with
  | case1 => rw [splitStream_nil]; simp [chunkLens_zero]
  | case2 a s ih =>
      rw [splitStream_cons, List.map_cons, ih, List.length_take, List.length_drop,
        chunkLens_pos ((a :: s).length) (by simp), Nat.min_comm]

theorem chunkLens_length (n : Nat) :
    (chunkLens n).length = (n + ChunkSize - 1) / ChunkSize := by
  induction n using chunkLens.induct with
  | case1 =>
      rw [chunkLens_zero]
      simp [ChunkSize]
  | case2 n h ih =>
      rw [chunkLens_pos n h, List.length_cons, ih]
      simp only [ChunkSize]
      omega

theorem chunkLens_sum (n : Nat) : (chunkLens n).sum = n := by
  induction n using chunkLens.induct with
  | case1 => rw [chunkLens_zero]; rfl
  | case2 n h ih =>
      rw [chunkLens_pos n h, List.sum_cons, ih]
      simp only [ChunkSize]
      omega

/-! ## Characterizations of the chunking and streaming loops -/

theorem splitAndStoreChunks_eq_nil (cancelAt : Option Nat)
    (writeErr : Nat → Option String) (chunkIds : Nat → String) (idx : Nat) :
    splitAndStoreChunks cancelAt writeErr chunkIds [] idx =
      if ctxDone cancelAt idx then .err ctxErr [] else .ok [] 0 [] := by
  rw [splitAndStoreChunks]

theorem splitAndStoreChunks_eq_err (cancelAt : Option Nat)
    (writeErr : Nat → Option String) (chunkIds : Nat → String) (idx : Nat)
    (e : String) (rest : List ReadEvent) :
    splitAndStoreChunks cancelAt writeErr chunkIds (.err e :: rest) idx =
      if ctxDone cancelAt idx then .err ctxErr [] else .err e [] := by
  rw [splitAndStoreChunks]

theorem splitAndStoreChunks_eq_bytes (cancelAt : Option Nat)
    (writeErr : Nat → Option String) (chunkIds : Nat → String) (idx : Nat)
    (data : List Nat) (rest : List ReadEvent) :
    splitAndStoreChunks cancelAt writeErr chunkIds (.bytes data :: rest) idx =
      if ctxDone cancelAt idx then .err ctxErr []
      else
        match writeErr idx with
        | some e => .err e []
        | none =>
            match splitAndStoreChunks cancelAt writeErr chunkIds rest (idx + 1) with
            | .ok cs n ds => .ok (chunkIds idx :: cs) (data.length + n) (data :: ds)
            | .err e ds => .err e (data :: ds) := by
  rw [splitAndStoreChunks]

/-- When the context is never cancelled, every read succeeds, and every
chunk write succeeds, `splitAndStoreChunks` stores one chunk per read: the
chunk ids are the generated ids in order, the total size is the number of
bytes read, and the chunk files hold exactly the reads, in order. -/
theorem splitAndStoreChunks_ok (writeErr : Nat → Option String)
    (chunkIds : Nat → String) (events : List ReadEvent) (idx : Nat)
    (hb : ∀ e ∈ events, ∃ d, e = ReadEvent.bytes d)
    (hw : ∀ i, writeErr i = none) :
    splitAndStoreChunks none writeErr chunkIds events idx =
      .ok ((List.range' idx events.length).map chunkIds)
        (events.map (fun e => e.dataOf.length)).sum
        (events.map ReadEvent.dataOf) := by
  induction events generalizing idx with
  | nil => rw [splitAndStoreChunks_eq_nil]; rfl
  | cons e rest ih =>
      obtain ⟨d, rfl⟩ := hb e (by simp)
      rw [splitAndStoreChunks_eq_bytes, hw idx,
        ih (idx + 1) (fun e he => hb e (by simp [he])) ]
      simp [ReadEvent.dataOf, List.range'_succ idx rest.length 1]

/-- When the context is cancelled from check `k` onward and the loop would
otherwise still be running at check `k`, the loop performs exactly the
first `k - idx` reads/writes and then stops with the context's own error. -/
theorem splitAndStoreChunks_cancelled (writeErr : Nat → Option String)
    (chunkIds : Nat → String) (events : List ReadEvent) (k idx : Nat)
    (hb : ∀ e ∈ events, ∃ d, e = ReadEvent.bytes d)
    (hw : ∀ i, writeErr i = none)
    (hik : idx ≤ k) (hlen : k - idx ≤ events.length) :
    splitAndStoreChunks (some k) writeErr chunkIds events idx =
      .err ctxErr ((events.take (k - idx)).map ReadEvent.dataOf) := by
  induction events generalizing idx with
  | nil =>
      have hk : k = idx := by simp at hlen; omega
      subst hk
      rw [splitAndStoreChunks_eq_nil]
      simp
  | cons e rest ih =>
      obtain ⟨d, rfl⟩ := hb e (by simp)
      by_cases hke : k ≤ idx
      · have hk : k = idx := Nat.le_antisymm hke hik
        subst hk
        rw [splitAndStoreChunks_eq_bytes]
        simp
      · rw [splitAndStoreChunks_eq_bytes]
        rw [if_neg (by simp; omega), hw idx,
          ih (idx + 1) (fun e he => hb e (by simp [he])) (by omega)
            (by simp at hlen ⊢; omega)]
        have hsucc : k - idx = (k - (idx + 1)) + 1 := by omega
        rw [hsucc]
        simp [ReadEvent.dataOf]

/-- When the context is never cancelled and all required chunk files are
present, the streaming loop emits chunks `i, i+1, …, i+rem-1` in order and
succeeds. -/
theorem streamChunks_ok (dir : List (List Nat)) (rem i : Nat)
    (h : i + rem ≤ dir.length) :
    streamChunks none dir rem i = ((dir.drop i).take rem, .ok ()) := by
  induction rem generalizing i with
  | zero => simp [streamChunks]
  | succ r ih =>
      rw [streamChunks]
      have hi : i < dir.length := by omega
      simp only [ctxDone_none, Bool.false_eq_true, if_false]
      rw [List.getElem?_eq_getElem hi, ih (i + 1) (by omega)]
      rw [List.drop_eq_getElem_cons hi]
      rfl

/-- When the context is cancelled from check `k` onward, with `k` inside the
range of remaining chunk indices and all chunks up to `k` readable, the
streaming loop writes exactly chunks `i .. k-1` and then stops with the
context's own error. -/
theorem streamChunks_cancelled (dir : List (List Nat)) (rem i k : Nat)
    (hik : i ≤ k) (hrem : k - i < rem) (hlen : k ≤ dir.length) :
    streamChunks (some k) dir rem i = ((dir.drop i).take (k - i), .error ctxErr) := by
  induction rem generalizing i with
  | zero => omega
  | succ r ih =>
      rw [streamChunks]
      by_cases hke : k ≤ i
      · have hk : k = i := Nat.le_antisymm hke hik
        subst hk
        simp
      · have hi : i < dir.length := by omega
        rw [if_neg (by simp; omega)]
        rw [List.getElem?_eq_getElem hi, ih (i + 1) (by omega) (by omega)]
        have hsucc : k - i = (k - (i + 1)) + 1 := by omega
        rw [hsucc, List.drop_eq_getElem_cons hi]
        rfl

/-! ## Characterizations of `StoreModel` -/

@[simp] theorem mkMetadata_id (digest : String → String) (newId name format : String)
    (now : Nat) (cs : List String) (n : Nat) :
    (mkMetadata digest newId name format now cs n).id = newId := rfl

@[simp] theorem mkMetadata_chunks (digest : String → String) (newId name format : String)
    (now : Nat) (cs : List String) (n : Nat) :
    (mkMetadata digest newId name format now cs n).chunks = cs := rfl

@[simp] theorem mkMetadata_size (digest : String → String) (newId name format : String)
    (now : Nat) (cs : List String) (n : Nat) :
    (mkMetadata digest newId name format now cs n).size = n := rfl

@[simp] theorem mkMetadata_hash (digest : String → String) (newId name format : String)
    (now : Nat) (cs : List String) (n : Nat) :
    (mkMetadata digest newId name format now cs n).hash =
      digest (newId ++ name ++ format) := rfl

/-- On a successful chunking pass, `StoreModel` returns the assembled
metadata, inserts it into the catalog, and leaves the written chunk files
in the model's directory (chunk files beyond those written, present only if
the fresh id collided with an existing directory, survive positionally). -/
theorem StoreModel_ok (digest : String → String) (s : Storage)
    (newId name format : String) (now : Nat) (chunkIds : Nat → String)
    (cancelAt : Option Nat) (writeErr : Nat → Option String)
    (events : List ReadEvent) (cs : List String) (n : Nat) (ds : List (List Nat))
    (hsp : splitAndStoreChunks cancelAt writeErr chunkIds events 0 = .ok cs n ds) :
    StoreModel digest s newId name format now chunkIds cancelAt writeErr events =
      (.ok (mkMetadata digest newId name format now cs n),
        { s with
            metadata :=
              insertA newId (mkMetadata digest newId name format now cs n) s.metadata
            disk :=
              insertA newId (ds ++ ((lookupA newId s.disk).getD []).drop ds.length)
                s.disk }) := by
  unfold StoreModel
  rw [hsp]

/-- On any chunking failure, `StoreModel` removes the partially created
model directory, leaves the catalog untouched, and returns the error. -/
theorem StoreModel_err (digest : String → String) (s : Storage)
    (newId name format : String) (now : Nat) (chunkIds : Nat → String)
    (cancelAt : Option Nat) (writeErr : Nat → Option String)
    (events : List ReadEvent) (e : String) (ds : List (List Nat))
    (hsp : splitAndStoreChunks cancelAt writeErr chunkIds events 0 = .err e ds) :
    StoreModel digest s newId name format now chunkIds cancelAt writeErr events =
      (.error e, { s with disk := removeA newId s.disk }) := by
  unfold StoreModel
  rw [hsp]

@[simp] theorem toReads_dataOf (S : List Nat) :
    (toReads S).map ReadEvent.dataOf = splitStream S := by
  simp [toReads, List.map_map]
  exact List.map_id _

@[simp] theorem toReads_length (S : List Nat) :
    (toReads S).length = (splitStream S).length := by
  simp [toReads]

theorem toReads_bytes (S : List Nat) :
    ∀ e ∈ toReads S, ∃ d, e = ReadEvent.bytes d := by
  intro e he
  simp [toReads] at he
  obtain ⟨d, _, rfl⟩ := he
  exact ⟨d, rfl⟩

/-! ## Counting copies in the block store -/

/-- In a store where every file sits at its content digest's path, a list
with no binding at `digest P` holds no copy of `P`. -/
theorem filter_data_eq_nil (digest : List Nat → String) (P : List Nat)
    (l : BlockDisk) (hwf : BlockDiskWF digest l)
    (hk : ∀ p ∈ l, p.1 ≠ digest P) :
    l.filter (fun p => p.2 = P) = [] := by
  rw [List.filter_eq_nil_iff]
  intro p hp
  simp only [decide_eq_true_eq]
  intro hdata
  exact hk p hp (by rw [hwf p hp, hdata])

theorem BlockDiskWF_removeA (digest : List Nat → String) (k : String)
    (l : BlockDisk) (hwf : BlockDiskWF digest l) :
    BlockDiskWF digest (removeA k l) := by
  intro p hp
  exact hwf p (List.mem_of_mem_filter hp)

theorem countCopies_insertA (digest : List Nat → String) (P : List Nat)
    (st : BlockDisk) (hwf : BlockDiskWF digest st) :
    countCopies P (insertA (digest P) P st) = 1 := by
  have hnil : (removeA (digest P) st).filter (fun p => p.2 = P) = [] := by
    refine filter_data_eq_nil digest P _ (BlockDiskWF_removeA digest _ st hwf) ?_
    intro p hp
    have := List.of_mem_filter hp
    simpa using this
  simp [countCopies, insertA, hnil]

theorem countCopies_of_lookupA (digest : List Nat → String) (P : List Nat)
    (st : BlockDisk) (hwf : BlockDiskWF digest st)
    (hnd : List.Pairwise (fun p q => p.1 ≠ q.1) st)
    (hlk : lookupA (digest P) st = some P) :
    countCopies P st = 1 := by
  induction st with
  | nil => simp at hlk
  | cons p rest ih =>
      rcases p with ⟨k, v⟩
      rcases List.pairwise_cons.mp hnd with ⟨hk, hndr⟩
      by_cases h : k = digest P
      · rw [lookupA_cons, if_pos h] at hlk
        have hv : v = P := Option.some.inj hlk
        have hnil : rest.filter (fun p => p.2 = P) = [] := by
          refine filter_data_eq_nil digest P rest (fun q hq => hwf q (by simp [hq])) ?_
          intro q hq
          have hkq : k ≠ q.1 := hk q hq
          rw [← h]
          exact fun he => hkq he.symm
        simp [countCopies, hnil, hv]
      · have hkv : k = digest v := hwf (k, v) (by simp)
        have hv : ¬ v = P := by
          intro hvP
          exact h (by rw [hkv, hvP])
        rw [lookupA_cons, if_neg h] at hlk
        have := ih (fun q hq => hwf q (by simp [hq])) hndr hlk
        simpa [countCopies, hv] using this

/-! ## Claims -/

/-- C10: for every hash `h` with a stored file, `GetBlock h` returns a block
whose `Hash` field is the requested `h` and whose `Size` is the length of
the stored data, with no re-verification that the data digests to `h`: the
stored data `d` is arbitrary and unrelated to `h` in this statement, so the
bytes are returned as the block for `h` even when they do not hash to it. -/
theorem getBlock_returns_stored_data_unverified (st : BlockDisk) (h : String)
    (d : List Nat) (hl : lookupA h st = some d) :
    GetBlock st h = .ok { hash := h, size := d.length, data := d } := by
  simp [GetBlock, hl]

theorem getBlock_returns_stored_data_unverified_witness :
    GetBlock [("not-the-digest-of-123", [1, 2, 3])] "not-the-digest-of-123" =
      .ok { hash := "not-the-digest-of-123", size := 3, data := [1, 2, 3] } :=
  getBlock_returns_stored_data_unverified [("not-the-digest-of-123", [1, 2, 3])]
    "not-the-digest-of-123" [1, 2, 3] rfl

/-- The receive loop dispatches exactly the non-self messages, in order. -/
theorem handleMessages_eq_filter (hostID : String) (events : List SubEvent) :
    handleMessages hostID events =
      (events.filterMap SubEvent.msgOf).filter (fun m => m.1 ≠ hostID) := by
  induction events with
  | nil => rfl
  | cons e rest ih =>
      cases e with
      | recvError => simpa [handleMessages, SubEvent.msgOf] using ih
      | msg f p =>
          by_cases hf : f = hostID
          · simp [handleMessages, SubEvent.msgOf, hf, ih]
          · simp [handleMessages, SubEvent.msgOf, hf, ih]

/-- C7: a message delivered by the subscription whose sender identity equals
the local node's identity is never dispatched to the per-message handler,
and every other message is dispatched: the dispatched sequence is exactly
the delivered messages whose sender differs from the local host id. -/
theorem handleMessages_suppresses_self (hostID : String) (events : List SubEvent) :
    (∀ m ∈ handleMessages hostID events, m.1 ≠ hostID) ∧
    (∀ f p, SubEvent.msg f p ∈ events → f ≠ hostID →
      (f, p) ∈ handleMessages hostID events) ∧
    handleMessages hostID events =
      (events.filterMap SubEvent.msgOf).filter (fun m => m.1 ≠ hostID) := by
  refine ⟨?_, ?_, handleMessages_eq_filter hostID events⟩
  · intro m hm
    rw [handleMessages_eq_filter] at hm
    have := List.of_mem_filter hm
    simpa using this
  · intro f p hmem hf
    rw [handleMessages_eq_filter]
    refine List.mem_filter.mpr ⟨?_, by simpa using hf⟩
    exact List.mem_filterMap.mpr ⟨SubEvent.msg f p, hmem, rfl⟩

theorem handleMessages_suppresses_self_witness :
    ("peer", [2]) ∈ handleMessages "me"
      [.msg "me" [1], .recvError, .msg "peer" [2]] ∧
    handleMessages "me" [.msg "me" [1], .recvError, .msg "peer" [2]] =
      ([SubEvent.msg "me" [1], .recvError, .msg "peer" [2]].filterMap
        SubEvent.msgOf).filter (fun m => m.1 ≠ "me") :=
  ⟨(handleMessages_suppresses_self "me"
      [.msg "me" [1], .recvError, .msg "peer" [2]]).2.1 "peer" [2]
      (by decide) (by decide),
    (handleMessages_suppresses_self "me"
      [.msg "me" [1], .recvError, .msg "peer" [2]]).2.2⟩

/-- C5: when `id` is in the catalog, `DeleteModel` succeeds, removes the
catalog entry and the on-disk chunk directory, after which `GetModel id`
fails with the NotFound error and the directory no longer exists; when `id`
is not in the catalog, `DeleteModel` fails with NotFound and leaves the
whole state (catalog and disk) unchanged. -/
theorem deleteModel_finality (s : Storage) (id : String) :
    (∀ md, lookupA id s.metadata = some md →
      DeleteModel s id =
        (.ok (), { s with metadata := removeA id s.metadata
                          disk := removeA id s.disk }) ∧
      GetModel (DeleteModel s id).2 id = .error ("model not found: " ++ id) ∧
      lookupA id (DeleteModel s id).2.disk = none) ∧
    (lookupA id s.metadata = none →
      DeleteModel s id = (.error ("model not found: " ++ id), s)) := by
  constructor
  · intro md hmd
    refine ⟨by simp [DeleteModel, hmd], ?_, ?_⟩
    · simp [DeleteModel, hmd, GetModel, getMetadata]
    · simp [DeleteModel, hmd]
  · intro hnone
    simp [DeleteModel, hnone]

theorem deleteModel_finality_witness :
    (DeleteModel
        { basePath := "base"
          metadata := [("m", mkMetadata (fun x => x) "m" "n" "f" 0 ["c"] 1)]
          disk := [("m", [[7]])] } "m" =
      (.ok (), { basePath := "base", metadata := [], disk := [] }) ∧
     GetModel (DeleteModel
        { basePath := "base"
          metadata := [("m", mkMetadata (fun x => x) "m" "n" "f" 0 ["c"] 1)]
          disk := [("m", [[7]])] } "m").2 "m" = .error ("model not found: " ++ "m") ∧
     lookupA "m" (DeleteModel
        { basePath := "base"
          metadata := [("m", mkMetadata (fun x => x) "m" "n" "f" 0 ["c"] 1)]
          disk := [("m", [[7]])] } "m").2.disk = none) ∧
    DeleteModel { basePath := "base", metadata := [], disk := [] } "q" =
      (.error ("model not found: " ++ "q"),
        { basePath := "base", metadata := [], disk := [] }) := by
  constructor
  · have h := (deleteModel_finality
      { basePath := "base"
        metadata := [("m", mkMetadata (fun x => x) "m" "n" "f" 0 ["c"] 1)]
        disk := [("m", [[7]])] } "m").1
      (mkMetadata (fun x => x) "m" "n" "f" 0 ["c"] 1) rfl
    simpa [removeA] using h
  · exact (deleteModel_finality
      { basePath := "base", metadata := [], disk := [] } "q").2 rfl

/-- C3: storing the same payload twice yields the same identifier (its
content digest) both times, the second call performs no write, leaves the
store unchanged, and afterwards the store holds exactly one copy of the
payload.  Hypotheses: every existing file sits at its own content digest's
path with distinct paths (the invariant `StoreBlock` maintains), and no
pre-existing file at `digest P`'s path holds different content (no digest
collision at this payload). -/
theorem storeBlock_idempotent (digest : List Nat → String) (st : BlockDisk)
    (P : List Nat)
    (hwf : BlockDiskWF digest st)
    (hnd : List.Pairwise (fun p q => p.1 ≠ q.1) st)
    (hcol : ∀ d, lookupA (digest P) st = some d → d = P) :
    (StoreBlock digest st P).1 = digest P ∧
    (StoreBlock digest (StoreBlock digest st P).2.1 P).1 =
      (StoreBlock digest st P).1 ∧
    (StoreBlock digest (StoreBlock digest st P).2.1 P).2.2 = false ∧
    (StoreBlock digest (StoreBlock digest st P).2.1 P).2.1 =
      (StoreBlock digest st P).2.1 ∧
    countCopies P (StoreBlock digest (StoreBlock digest st P).2.1 P).2.1 = 1 := by
  cases hl : lookupA (digest P) st with
  | some d =>
      have hdP : d = P := hcol d hl
      rw [hdP] at hl
      simp only [StoreBlock, hl]
      refine ⟨by trivial, by trivial, by trivial, by trivial, ?_⟩
      exact countCopies_of_lookupA digest P st hwf hnd hl
  | none =>
      simp only [StoreBlock, hl, lookupA_insertA_self]
      refine ⟨by trivial, by trivial, by trivial, by trivial, ?_⟩
      exact countCopies_insertA digest P st hwf

theorem storeBlock_idempotent_witness :
    (StoreBlock (fun _ => "h") ([] : BlockDisk) [5]).1 = "h" ∧
    (StoreBlock (fun _ => "h") (StoreBlock (fun _ => "h") [] [5]).2.1 [5]).1 =
      (StoreBlock (fun _ => "h") ([] : BlockDisk) [5]).1 ∧
    (StoreBlock (fun _ => "h") (StoreBlock (fun _ => "h") [] [5]).2.1 [5]).2.2 =
      false ∧
    (StoreBlock (fun _ => "h") (StoreBlock (fun _ => "h") [] [5]).2.1 [5]).2.1 =
      (StoreBlock (fun _ => "h") ([] : BlockDisk) [5]).2.1 ∧
    countCopies [5]
      (StoreBlock (fun _ => "h") (StoreBlock (fun _ => "h") [] [5]).2.1 [5]).2.1 = 1 :=
  storeBlock_idempotent (fun _ => "h") [] [5]
    (fun p hp => absurd hp (List.not_mem_nil p)) List.Pairwise.nil
    (fun d hd => by simp at hd)

/-- `StoreModel` returning `.ok md` forces `md`'s hash to be the digest of
the concatenation of the generated id, the name, and the format. -/
theorem storeModel_ok_hash (digest : String → String) (s : Storage)
    (newId name format : String) (now : Nat) (ids : Nat → String)
    (c : Option Nat) (w : Nat → Option String) (ev : List ReadEvent)
    (md : ModelMetadata)
    (h : (StoreModel digest s newId name format now ids c w ev).1 = .ok md) :
    md.hash = digest (newId ++ name ++ format) := by
  unfold StoreModel at h
  cases hsp : splitAndStoreChunks c w ids ev 0 with
  | ok cs n ds =>
      rw [hsp] at h
      simp at h
      rw [← h]
      simp
  | err e ds =>
      rw [hsp] at h
      simp at h

/-- C9: the metadata hash is a function of the identifier, name, and format
only — `CalculateHash` reads no other field, so metadata agreeing on those
three fields hash identically; consequently two `StoreModel` calls with the
same generated identifier, name, and format produce metadata with the same
hash no matter what content was streamed in. -/
theorem metadata_hash_from_id_name_format (digest : String → String) :
    (∀ m₁ m₂ : ModelMetadata, m₁.id = m₂.id → m₁.name = m₂.name →
      m₁.format = m₂.format →
      m₁.CalculateHash digest = m₂.CalculateHash digest) ∧
    (∀ (s₁ s₂ : Storage) (newId name format : String) (now₁ now₂ : Nat)
      (ids₁ ids₂ : Nat → String) (c₁ c₂ : Option Nat)
      (w₁ w₂ : Nat → Option String) (ev₁ ev₂ : List ReadEvent)
      (md₁ md₂ : ModelMetadata),
      (StoreModel digest s₁ newId name format now₁ ids₁ c₁ w₁ ev₁).1 = .ok md₁ →
      (StoreModel digest s₂ newId name format now₂ ids₂ c₂ w₂ ev₂).1 = .ok md₂ →
      md₁.hash = md₂.hash) := by
  constructor
  · intro m₁ m₂ h1 h2 h3
    simp [ModelMetadata.CalculateHash, h1, h2, h3]
  · intro s₁ s₂ newId name format now₁ now₂ ids₁ ids₂ c₁ c₂ w₁ w₂ ev₁ ev₂ md₁ md₂ h1 h2
    rw [storeModel_ok_hash digest s₁ newId name format now₁ ids₁ c₁ w₁ ev₁ md₁ h1,
        storeModel_ok_hash digest s₂ newId name format now₂ ids₂ c₂ w₂ ev₂ md₂ h2]

theorem metadata_hash_from_id_name_format_witness :
    (mkMetadata (fun x => x) "m" "n" "f" 3 ["c"] 1).hash =
      (mkMetadata (fun x => x) "m" "n" "f" 7 ["c"] 2).hash :=
  (metadata_hash_from_id_name_format (fun x => x)).2
    ⟨"", [], []⟩ ⟨"", [], []⟩ "m" "n" "f" 3 7 (fun _ => "c") (fun _ => "c")
    none none (fun _ => none) (fun _ => none)
    [.bytes [1]] [.bytes [2, 3]] _ _ rfl rfl

/-- A single retry step of the backoff loop while the delay is within the
ceiling and the attempt fails. -/
theorem backoffLoop_step (attemptOk : Nat → Bool) (h : ∀ i, attemptOk i = false)
    (i : Nat) (acc : List Nat) (hle : 2 ^ i ≤ 60) :
    backoffLoop attemptOk none i acc =
      backoffLoop attemptOk none (i + 1) (acc ++ [2 ^ i]) := by
  conv_lhs => rw [backoffLoop.eq_def]
  simp [h i]
  omega

/-- Against a peer whose attempts all fail, the backoff loop sleeps
1, 2, 4, 8, 16, 32 seconds and then fails with "max backoff reached". -/
theorem connectBackoff_allfail (attemptOk : Nat → Bool)
    (h : ∀ i, attemptOk i = false) :
    connectToPeerWithBackoff attemptOk none = .maxBackoff [1, 2, 4, 8, 16, 32] := by
  have hstep := backoffLoop_step attemptOk h
  rw [connectToPeerWithBackoff,
    hstep 0 _ (by norm_num), hstep 1 _ (by norm_num), hstep 2 _ (by norm_num),
    hstep 3 _ (by norm_num), hstep 4 _ (by norm_num), hstep 5 _ (by norm_num)]
  conv_lhs => rw [backoffLoop.eq_def]
  simp [h 6]

/-- `connectToBootstrapPeers` attempts every configured address
independently and always returns `nil`. -/
theorem connectToBootstrapPeers_eq (cancelAt : Option Nat) (ps : List PeerAddr) :
    connectToBootstrapPeers cancelAt ps =
      (ps.filterMap (peerOutcome cancelAt), .ok ()) := by
  induction ps with
  | nil => rfl
  | cons pa rest ih =>
      cases pa <;> simp [connectToBootstrapPeers, peerOutcome, ih]

/-- C6: when every connection attempt against a peer fails, the backoff
loop retries with the strictly increasing doubling delays 1, 2, 4, 8, 16,
32 seconds starting at 1 second, and terminates with the "max backoff
reached" failure once the delay (64s) would exceed the 60-second ceiling —
it does not retry indefinitely.  And the bootstrap loop handles every
configured address independently: each valid address gets its own backoff
run and the loop always returns success, so one peer's failure aborts no
other peer's attempts. -/
theorem backoff_termination_and_peer_independence (attemptOk : Nat → Bool)
    (h : ∀ i, attemptOk i = false) (ps : List PeerAddr) :
    connectToPeerWithBackoff attemptOk none = .maxBackoff [1, 2, 4, 8, 16, 32] ∧
    List.Chain' (fun a b => b = 2 * a ∧ a < b) [1, 2, 4, 8, 16, 32] ∧
    ¬ 2 ^ 5 > 60 ∧ 2 ^ 6 > 60 ∧
    connectToBootstrapPeers none ps = (ps.filterMap (peerOutcome none), .ok ()) :=
  ⟨connectBackoff_allfail attemptOk h,
    by simp only [List.chain'_cons, List.chain'_singleton, and_true]; decide,
    by decide, by decide, connectToBootstrapPeers_eq none ps⟩

theorem backoff_termination_and_peer_independence_witness :
    connectToPeerWithBackoff (fun _ => false) none =
      .maxBackoff [1, 2, 4, 8, 16, 32] ∧
    List.Chain' (fun a b => b = 2 * a ∧ a < b) [1, 2, 4, 8, 16, 32] ∧
    ¬ 2 ^ 5 > 60 ∧ 2 ^ 6 > 60 ∧
    connectToBootstrapPeers none [.invalidAddr, .valid (fun _ => false)] =
      ([.invalidAddr, .valid (fun _ => false)].filterMap (peerOutcome none),
        .ok ()) :=
  backoff_termination_and_peer_independence (fun _ => false) (fun _ => rfl)
    [.invalidAddr, .valid (fun _ => false)]

/-- Streaming a model whose catalog entry lists as many chunks as were
written to the front of its directory emits exactly those chunks. -/
theorem StreamModel_reads_written (s : Storage) (newId : String)
    (md : ModelMetadata) (ds rest : List (List Nat))
    (hmd : lookupA newId s.metadata = some md)
    (hdisk : lookupA newId s.disk = some (ds ++ rest))
    (hlen : md.chunks.length = ds.length) :
    StreamModel s none newId = (ds, .ok ()) := by
  simp only [StreamModel, hmd, hdisk, Option.getD_some, hlen]
  rw [streamChunks_ok (ds ++ rest) ds.length 0 (by simp)]
  simp [List.take_left]

/-- C1: round-trip reconstruction.  For every byte stream `S` — empty,
below one chunk, or spanning several chunk boundaries — storing `S` with
`StoreModel` succeeds, and `StreamModel` on the returned model id writes
exactly the stored chunks in order, whose concatenation is `S`,
byte for byte. -/
theorem storeModel_streamModel_roundtrip (digest : String → String) (s : Storage)
    (newId name format : String) (now : Nat) (chunkIds : Nat → String)
    (S : List Nat) :
    ∃ md s',
      StoreModel digest s newId name format now chunkIds none (fun _ => none)
        (toReads S) = (.ok md, s') ∧
      md.id = newId ∧
      StreamModel s' none md.id = (splitStream S, .ok ()) ∧
      (StreamModel s' none md.id).1.flatten = S := by
  have hsp := splitAndStoreChunks_ok (fun _ => none) chunkIds (toReads S) 0
    (toReads_bytes S) (fun _ => rfl)
  have hSM := StoreModel_ok digest s newId name format now chunkIds none
    (fun _ => none) (toReads S) _ _ _ hsp
  have hstream :
      StreamModel (StoreModel digest s newId name format now chunkIds none
        (fun _ => none) (toReads S)).2 none newId = (splitStream S, .ok ()) := by
    simp only [hSM]
    rw [← toReads_dataOf]
    exact StreamModel_reads_written _ newId _ _ _ (lookupA_insertA_self _ _ _)
      (lookupA_insertA_self _ _ _) (by simp)
  simp only [hSM] at hstream
  refine ⟨_, _, hSM, rfl, ?_, ?_⟩
  · simpa only [mkMetadata_id] using hstream
  · rw [mkMetadata_id, hstream]
    exact splitStream_flatten S

/-- The successful result of the chunking loop satisfies: total size is the
sum of the written chunk payload lengths, and one chunk id was generated
per chunk file written. -/
theorem splitAndStoreChunks_ok_inv (writeErr : Nat → Option String)
    (chunkIds : Nat → String) :
    ∀ (events : List ReadEvent) (idx : Nat) (cs : List String) (n : Nat)
      (ds : List (List Nat)),
      splitAndStoreChunks none writeErr chunkIds events idx = .ok cs n ds →
      n = (ds.map List.length).sum ∧ cs.length = ds.length := by
  intro events
  induction events with
  | nil =>
      intro idx cs n ds h
      rw [splitAndStoreChunks_eq_nil] at h
      simp at h
      obtain ⟨rfl, rfl, rfl⟩ := h
      simp
  | cons e rest ih =>
      intro idx cs n ds h
      cases e with
      | err e' =>
          rw [splitAndStoreChunks_eq_err] at h
          simp at h
      | bytes d =>
          rw [splitAndStoreChunks_eq_bytes] at h
          simp only [ctxDone_none, Bool.false_eq_true, if_false] at h
          cases hw : writeErr idx with
          | some e' => rw [hw] at h; simp at h
          | none =>
              rw [hw] at h
              cases hrec : splitAndStoreChunks none writeErr chunkIds rest (idx + 1) with
              | err e' ds' => rw [hrec] at h; simp at h
              | ok cs' n' ds' =>
                  rw [hrec] at h
                  simp at h
                  obtain ⟨rfl, rfl, rfl⟩ := h
                  obtain ⟨hsum, hlen⟩ := ih (idx + 1) cs' n' ds' hrec
                  constructor
                  · simp [hsum]
                  · simp [hlen]

/-- C2 as written is false: the chunk count equals `ceil(size / chunkSize)`
only for readers that fill the 5 MiB buffer whenever they can.  `Read` on a
Go `io.Reader` may legally return fewer bytes than the buffer holds, and
`splitAndStoreChunks` makes one chunk per `Read` call: a reader delivering
a 2-byte stream as two 1-byte reads produces 2 chunks where
`ceil(2 / chunkSize) = 1`. -/
theorem storeModel_chunkCount_counterexample :
    ¬ (∀ (events : List ReadEvent), (∀ e ∈ events, ∃ d, e = ReadEvent.bytes d) →
      ∀ (md : ModelMetadata) (s' : Storage),
        StoreModel (fun x => x) ⟨"", [], []⟩ "m" "n" "f" 0 (fun _ => "c") none
          (fun _ => none) events = (.ok md, s') →
        md.chunks.length = (md.size + ChunkSize - 1) / ChunkSize) := by
  intro hclaim
  have hsp := splitAndStoreChunks_ok (fun _ => none) (fun _ => "c")
    [.bytes [0], .bytes [0]] 0
    (by intro e he; simp at he; exact ⟨[0], he⟩) (fun _ => rfl)
  have hSM := StoreModel_ok (fun x => x) ⟨"", [], []⟩ "m" "n" "f" 0 (fun _ => "c")
    none (fun _ => none) [.bytes [0], .bytes [0]] _ _ _ hsp
  have h2 := hclaim [.bytes [0], .bytes [0]]
    (by intro e he; simp at he; exact ⟨[0], he⟩) _ _ hSM
  simp only [mkMetadata_chunks, mkMetadata_size, List.length_map,
    List.length_range', List.length_cons, List.length_nil] at h2
  simp only [List.map_cons, List.map_nil, ReadEvent.dataOf, List.sum_cons,
    List.sum_nil, List.length_cons, List.length_nil] at h2
  norm_num [ChunkSize] at h2

/-- C2 (amended): after a successful `StoreModel` the metadata's size always
equals the sum of the lengths of the chunk payloads written to disk, with
one chunk id recorded per chunk written; the chunk count equals
`ceil(size / chunkSize)` (chunkSize = 5 MiB) for streams delivered in
maximal reads (each `Read` fills the buffer while data remains, as
`bytes.Reader`/`strings.Reader` do — not for arbitrary readers, which may
deliver short reads); in particular a 12 MiB stream so delivered yields
exactly 3 chunks of 5, 5, and 2 MiB. -/
theorem storeModel_catalog_consistency (digest : String → String) (s : Storage)
    (newId name format : String) (now : Nat) (chunkIds : Nat → String) :
    (∀ S : List Nat, ∃ md s',
      StoreModel digest s newId name format now chunkIds none (fun _ => none)
        (toReads S) = (.ok md, s') ∧
      md.size = S.length ∧
      md.chunks.length = (S.length + ChunkSize - 1) / ChunkSize) ∧
    (∀ (events : List ReadEvent) (cs : List String) (n : Nat)
      (ds : List (List Nat)),
      splitAndStoreChunks none (fun _ => none) chunkIds events 0 = .ok cs n ds →
      n = (ds.map List.length).sum ∧ cs.length = ds.length) ∧
    (∃ md s',
      StoreModel digest s newId name format now chunkIds none (fun _ => none)
        (toReads (List.replicate (12 * 1024 * 1024) 0)) = (.ok md, s') ∧
      md.size = 12 * 1024 * 1024 ∧ md.chunks.length = 3 ∧
      (splitStream (List.replicate (12 * 1024 * 1024) 0)).map List.length =
        [5 * 1024 * 1024, 5 * 1024 * 1024, 2 * 1024 * 1024]) := by
  have hmain : ∀ S : List Nat, ∃ md s',
      StoreModel digest s newId name format now chunkIds none (fun _ => none)
        (toReads S) = (.ok md, s') ∧
      md.size = S.length ∧
      md.chunks.length = (S.length + ChunkSize - 1) / ChunkSize := by
    intro S
    have hsp := splitAndStoreChunks_ok (fun _ => none) chunkIds (toReads S) 0
      (toReads_bytes S) (fun _ => rfl)
    have hSM := StoreModel_ok digest s newId name format now chunkIds none
      (fun _ => none) (toReads S) _ _ _ hsp
    refine ⟨_, _, hSM, ?_, ?_⟩
    · rw [mkMetadata_size]
      have hm : ((toReads S).map fun e => e.dataOf.length) =
          (splitStream S).map List.length := by
        simp [toReads, List.map_map, Function.comp, ReadEvent.dataOf]
      rw [hm, splitStream_lengths, chunkLens_sum]
    · rw [mkMetadata_chunks]
      have hlen : (splitStream S).length = (chunkLens S.length).length := by
        have := congrArg List.length (splitStream_lengths S)
        simpa using this
      simp only [List.length_map, List.length_range', toReads_length]
      rw [hlen, chunkLens_length]
  refine ⟨hmain, fun events cs n ds h =>
    splitAndStoreChunks_ok_inv (fun _ => none) chunkIds events 0 cs n ds h, ?_⟩
  obtain ⟨md, s', hSM, hsize, hcount⟩ := hmain (List.replicate (12 * 1024 * 1024) 0)
  refine ⟨md, s', hSM, ?_, ?_, ?_⟩
  · rw [List.length_replicate] at hsize
    exact hsize
  · rw [List.length_replicate] at hcount
    rw [hcount]
    norm_num [ChunkSize]
  · rw [splitStream_lengths, List.length_replicate,
      chunkLens_pos (12 * 1024 * 1024) (by norm_num),
      chunkLens_pos (12 * 1024 * 1024 - ChunkSize) (by norm_num [ChunkSize]),
      chunkLens_pos (12 * 1024 * 1024 - ChunkSize - ChunkSize)
        (by norm_num [ChunkSize])]
    norm_num [ChunkSize, Nat.min_def, chunkLens_zero]

theorem storeModel_catalog_consistency_witness :
    (2 : Nat) = ([[0], [0]].map List.length).sum ∧
    (["c", "c"] : List String).length = ([[0], [0]] : List (List Nat)).length :=
  (storeModel_catalog_consistency (fun x => x) ⟨"", [], []⟩ "m" "n" "f" 0
    (fun _ => "c")).2.1 [.bytes [0], .bytes [0]] ["c", "c"] 2 [[0], [0]] rfl

/-- C4: on every failure during the chunk-writing phase — a read error or a
chunk write error — `StoreModel` removes the partially created model
directory, returns that error, and inserts nothing into the catalog: the
catalog is exactly as before, the model's directory is gone, other
directories are untouched, and the caller sees the error, never a success,
for the partially completed write. -/
theorem storeModel_cleanup_on_failure (digest : String → String) (s : Storage)
    (newId name format : String) (now : Nat) (chunkIds : Nat → String)
    (cancelAt : Option Nat) (writeErr : Nat → Option String)
    (events : List ReadEvent) (e : String) (ds : List (List Nat))
    (hsp : splitAndStoreChunks cancelAt writeErr chunkIds events 0 = .err e ds) :
    StoreModel digest s newId name format now chunkIds cancelAt writeErr events =
      (.error e, { s with disk := removeA newId s.disk }) ∧
    (StoreModel digest s newId name format now chunkIds cancelAt writeErr
      events).2.metadata = s.metadata ∧
    lookupA newId (StoreModel digest s newId name format now chunkIds cancelAt
      writeErr events).2.disk = none ∧
    (∀ id', id' ≠ newId →
      lookupA id' (StoreModel digest s newId name format now chunkIds cancelAt
        writeErr events).2.disk = lookupA id' s.disk) := by
  have hSM := StoreModel_err digest s newId name format now chunkIds cancelAt
    writeErr events e ds hsp
  refine ⟨hSM, by rw [hSM], ?_, ?_⟩
  · rw [hSM]
    exact lookupA_removeA_self newId s.disk
  · intro id' hid
    rw [hSM]
    exact lookupA_removeA_ne newId id' s.disk hid

theorem storeModel_cleanup_on_failure_witness :
    StoreModel (fun x => x) ⟨"b", [], [("m", [[9]])]⟩ "m" "n" "f" 0 (fun _ => "c")
      none (fun _ => none) [.bytes [4], .err "boom"] =
      (.error "boom", ⟨"b", [], []⟩) ∧
    (StoreModel (fun x => x) ⟨"b", [], [("m", [[9]])]⟩ "m" "n" "f" 0 (fun _ => "c")
      none (fun _ => none) [.bytes [4], .err "boom"]).2.metadata = [] ∧
    lookupA "m" (StoreModel (fun x => x) ⟨"b", [], [("m", [[9]])]⟩ "m" "n" "f" 0
      (fun _ => "c") none (fun _ => none) [.bytes [4], .err "boom"]).2.disk = none ∧
    lookupA "other" (StoreModel (fun x => x) ⟨"b", [], [("m", [[9]])]⟩ "m" "n" "f" 0
      (fun _ => "c") none (fun _ => none) [.bytes [4], .err "boom"]).2.disk =
      lookupA "other" [("m", [[9]])] := by
  have h := storeModel_cleanup_on_failure (fun x => x) ⟨"b", [], [("m", [[9]])]⟩
    "m" "n" "f" 0 (fun _ => "c") none (fun _ => none) [.bytes [4], .err "boom"]
    "boom" [[4]] rfl
  refine ⟨?_, h.2.1, h.2.2.1, h.2.2.2 "other" (by decide)⟩
  have h1 := h.1
  simpa [removeA] using h1

/-- C8: the chunking loop of `StoreModel` and the streaming loop of
`StreamModel` check the cancellation signal before each per-chunk unit of
work; once cancellation is observed (from check `k` onward) the loop stops
having performed exactly the first `k` units, and the operation returns the
cancellation's own error, not a success: `StoreModel` cleans up and returns
`ctx.Err()`, and `StreamModel` stops after writing the first `k` chunks and
returns `ctx.Err()`. -/
theorem cancellation_aborts_promptly (digest : String → String) :
    (∀ (s : Storage) (newId name format : String) (now : Nat)
      (chunkIds : Nat → String) (writeErr : Nat → Option String)
      (events : List ReadEvent) (k : Nat),
      (∀ e ∈ events, ∃ d, e = ReadEvent.bytes d) → (∀ i, writeErr i = none) →
      k ≤ events.length →
      splitAndStoreChunks (some k) writeErr chunkIds events 0 =
        .err ctxErr ((events.take k).map ReadEvent.dataOf) ∧
      StoreModel digest s newId name format now chunkIds (some k) writeErr
        events = (.error ctxErr, { s with disk := removeA newId s.disk })) ∧
    (∀ (s : Storage) (id : String) (md : ModelMetadata)
      (dir : List (List Nat)) (k : Nat),
      lookupA id s.metadata = some md → lookupA id s.disk = some dir →
      k < md.chunks.length → k ≤ dir.length →
      StreamModel s (some k) id = (dir.take k, .error ctxErr)) := by
  constructor
  · intro s newId name format now chunkIds writeErr events k hb hw hk
    have hsp := splitAndStoreChunks_cancelled writeErr chunkIds events k 0 hb hw
      (Nat.zero_le k) (by simpa using hk)
    rw [Nat.sub_zero] at hsp
    exact ⟨hsp, StoreModel_err digest s newId name format now chunkIds (some k)
      writeErr events ctxErr _ hsp⟩
  · intro s id md dir k hmd hdisk hlt hle
    simp only [StreamModel, hmd, hdisk, Option.getD_some]
    rw [streamChunks_cancelled dir md.chunks.length 0 k (Nat.zero_le k)
      (by omega) hle]
    simp

theorem cancellation_aborts_promptly_witness :
    (splitAndStoreChunks (some 1) (fun _ => none) (fun _ => "c")
        [.bytes [4]] 0 =
      .err ctxErr (([ReadEvent.bytes [4]].take 1).map ReadEvent.dataOf) ∧
      StoreModel (fun x => x) ⟨"", [], []⟩ "m2" "n" "f" 0 (fun _ => "c") (some 1)
        (fun _ => none) [.bytes [4]] =
        (.error ctxErr, ⟨"", [], removeA "m2" []⟩)) ∧
    StreamModel ⟨"", [("m", mkMetadata (fun x => x) "m" "n" "f" 0 ["a", "b"] 2)],
        [("m", [[1], [2]])]⟩ (some 1) "m" =
      ([[1], [2]].take 1, .error ctxErr) :=
  ⟨(cancellation_aborts_promptly (fun x => x)).1 ⟨"", [], []⟩ "m2" "n" "f" 0
      (fun _ => "c") (fun _ => none) [.bytes [4]] 1
      (by intro e he; simp at he; exact ⟨[4], he⟩) (fun _ => rfl) (by decide),
    (cancellation_aborts_promptly (fun x => x)).2
      ⟨"", [("m", mkMetadata (fun x => x) "m" "n" "f" 0 ["a", "b"] 2)],
        [("m", [[1], [2]])]⟩ "m"
      (mkMetadata (fun x => x) "m" "n" "f" 0 ["a", "b"] 2) [[1], [2]] 1
      rfl rfl (by simp) (by simp)⟩

end ThreeDS
